import Mathlib

set_option maxRecDepth 40000

/-!
Verification of the byte-manipulation engines of the irisfiles repository:
the PalmDOC/MOBI decompressor, the MOV→MP4 ftyp rewriter, the MOBI text
extractor, the magic-byte file-type sniffer, the GIF frame-deduplication
delay accounting, and the RTF tag stripper.  Every definition is a direct
shallow embedding of the corresponding JavaScript function; bytes are
modelled as `Nat` (JS `Uint8Array` entries are 0..255, out-of-bounds reads
yield the JS `undefined → 0` behaviour via `getD _ 0`, out-of-bounds
writes are ignored via `setD`).  Loops that advance a cursor are embedded
structurally with an explicit iteration budget (`fuel`) that is provably
sufficient — the budget-independence lemmas are the termination arguments
of the corresponding `while` loops.
-/

/-! ## PalmDOC LZ77 decompression (`palmDocDecompress`, part_005) -/

/-- One iteration of the inner back-reference copy loop:
`const idx = pos - dist + j; out.push(idx >= 0 && idx < out.length ? out[idx] : 0)`. -/
def backRefStep (pos dist : Nat) (out : Array Nat) (j : Nat) : Array Nat :=
  let idx : Int := (pos : Int) - (dist : Int) + (j : Int)
  if 0 ≤ idx ∧ idx < (out.size : Int) then out.push (out.getD idx.toNat 0)
  else out.push 0

/-- The back-reference copy loop `for (let j = 0; j < len; j++) ...` with
`pos = out.length` captured before the loop. -/
def backRefCopy (out : Array Nat) (dist len : Nat) : Array Nat :=
  (List.range len).foldl (backRefStep out.size dist) out

/-- The main `while (i < data.length)` loop of `palmDocDecompress`, with the
remaining input as a list (the code only ever reads `data[i]`, `data[i+1]`
and the literal run `data[i..i+b-1]`, all relative to the cursor) and an
iteration budget.  Each iteration consumes at least one input byte, so a
budget of `data.length` is exact (see `palmDocGo_fuel`).
Branches in source order: `byte === 0`; `byte >= 1 && byte <= 8`;
`byte >= 0x80`; `byte >= 0x09 && byte <= 0x7F`; else (unreachable
space-plus-char branch, kept as in the source). -/
def palmDocGo : Nat → List Nat → Array Nat → Array Nat
  | 0, _, out => out
  | _ + 1, [], out => out
  | fuel + 1, b :: rest, out =>
    if b = 0 then palmDocGo fuel rest (out.push 0)
    else if 1 ≤ b ∧ b ≤ 8 then palmDocGo fuel (rest.drop b) (out ++ (rest.take b).toArray)
    else if 0x80 ≤ b then
      match rest with
      | [] => out
      | n :: rest2 =>
        let dist := ((b <<< 8 ||| n) >>> 3) &&& 0x7FF
        let len := (n &&& 0x07) + 3
        palmDocGo fuel rest2 (backRefCopy out dist len)
    else if 9 ≤ b ∧ b ≤ 0x7F then palmDocGo fuel rest (out.push b)
    else palmDocGo fuel rest ((out.push 0x20).push (b ^^^ 0x80))

/-- Function `palmDocDecompress(data)`: run the loop on the whole input with an empty
output buffer. -/
def palmDocDecompress (data : List Nat) : Array Nat :=
  palmDocGo data.length data #[]

/-! ## MOV→MP4 remux (`remuxMovToMp4`, part_004)

`view.getUint32(pos)` big-endian; `chr4` builds a 4-character string from
byte reads (out-of-bounds reads give `undefined`, and
`String.fromCharCode(undefined) = '\x00'`, i.e. code 0); `writeStr4`
stores 4 char codes (out-of-bounds stores on a `Uint8Array` are ignored).
Strings are modelled as their lists of char codes. -/

def be32 (a : Array Nat) (p : Nat) : Nat :=
  16777216 * a.getD p 0 + 65536 * a.getD (p + 1) 0 + 256 * a.getD (p + 2) 0 + a.getD (p + 3) 0

def chr4 (a : Array Nat) (p : Nat) : List Nat :=
  [a.getD p 0, a.getD (p + 1) 0, a.getD (p + 2) 0, a.getD (p + 3) 0]

def writeStr4 (a : Array Nat) (p : Nat) (s : List Nat) : Array Nat :=
  (((a.setD p (s.getD 0 0)).setD (p + 1) (s.getD 1 0)).setD (p + 2) (s.getD 2 0)).setD
    (p + 3) (s.getD 3 0)

/-- Char codes of `'ftyp'`. -/
def ftyp4 : List Nat := [0x66, 0x74, 0x79, 0x70]

/-- Char codes of `'qt  '`. -/
def qt4 : List Nat := [0x71, 0x74, 0x20, 0x20]

/-- Char codes of `'isom'`. -/
def isom4 : List Nat := [0x69, 0x73, 0x6F, 0x6D]

/-- Char codes of `'MSNV'`. -/
def msnv4 : List Nat := [0x4D, 0x53, 0x4E, 0x56]

/-- Char codes of `'mqt '`. -/
def mqt4 : List Nat := [0x6D, 0x71, 0x74, 0x20]

/-- Test `brand === 'qt  ' || brand === 'MSNV' || brand === 'mqt '`. -/
def isQtBrand (b : List Nat) : Prop := b = qt4 ∨ b = msnv4 ∨ b = mqt4

instance (b : List Nat) : Decidable (isQtBrand b) := by
  unfold isQtBrand
  infer_instance

/-- The compatible-brands rewrite loop
`for (let cp = pos + 16; cp + 4 <= ftypEnd; cp += 4)`, which rewrites the
first `'qt  '` entry to `'isom'` and breaks.  `cp` grows by 4 every
iteration, so a budget of `endP` iterations is always sufficient. -/
def compatGo : Nat → Array Nat → Nat → Nat → Array Nat
  | 0, a, _, _ => a
  | fuel + 1, a, cp, endP =>
    if cp + 4 ≤ endP then
      if chr4 a cp = qt4 then writeStr4 a cp isom4
      else compatGo fuel a (cp + 4) endP
    else a

/-- The position of the first 4-byte entry equal to `'qt  '` in the
4-byte-stepped scan from `cp` (entries entirely before `endP`) — the
search performed by the compatible-brands loop. -/
def firstQtGo : Nat → Array Nat → Nat → Nat → Option Nat
  | 0, _, _, _ => none
  | fuel + 1, a, cp, endP =>
    if cp + 4 ≤ endP then
      if chr4 a cp = qt4 then some cp else firstQtGo fuel a (cp + 4) endP
    else none

/-- The body of the `if (type === 'ftyp')` branch: conditionally rewrite
the major brand at `pos + 8`, then run the compatible-brands loop from
`pos + 16` to `pos + size`. -/
def patchBrands (a : Array Nat) (pos size : Nat) : Array Nat :=
  let b1 := if isQtBrand (chr4 a (pos + 8)) then writeStr4 a (pos + 8) isom4 else a
  compatGo (pos + size) b1 (pos + 16) (pos + size)

/-- The box-scan loop `while (pos + 8 <= bytes.length && pos < 4096)`,
returning the (possibly patched) byte array and the `found` flag.  Each
iteration advances `pos` by `size ≥ 8`, so at most 512 iterations can
occur before `pos ≥ 4096`; the budget 4096 is therefore never exhausted
(so the scan's behaviour is fully characterised by `remuxGo_eq_find`). -/
def remuxGo : Nat → Array Nat → Nat → Array Nat × Bool
  | 0, a, _ => (a, false)
  | fuel + 1, a, pos =>
    if pos + 8 ≤ a.size ∧ pos < 4096 then
      let size := be32 a pos
      if size < 8 ∨ size > a.size - pos then (a, false)
      else if chr4 a (pos + 4) = ftyp4 then (patchBrands a pos size, true)
      else remuxGo fuel a (pos + size)
    else (a, false)

/-- The pure search performed by the box scan: the offset of the first
`'ftyp'` box reached from `pos` — starting at offset 0 it visits only
boxes whose headers begin in the first 4096 bytes and stops early at any
box whose declared 32-bit size is less than 8 or extends past the end of
the file. -/
def findFtypGo : Nat → Array Nat → Nat → Option Nat
  | 0, _, _ => none
  | fuel + 1, a, pos =>
    if pos + 8 ≤ a.size ∧ pos < 4096 then
      let size := be32 a pos
      if size < 8 ∨ size > a.size - pos then none
      else if chr4 a (pos + 4) = ftyp4 then some pos
      else findFtypGo fuel a (pos + size)
    else none

/-- The error message thrown when no `ftyp` box is found. -/
def noFtypMsg : String := "Not a valid MOV file (no file type header found)."

/-- Function `remuxMovToMp4`: scan for the `ftyp` box, patch its brands, and either
return the (otherwise untouched) bytes or throw. -/
def remuxMovToMp4 (a : Array Nat) : Except String (Array Nat) :=
  match remuxGo 4096 a 0 with
  | (b, true) => Except.ok b
  | (_, false) => Except.error noFtypMsg

/-! ## MOBI text extraction (`extractMobiText`, part_005)

The extraction pipeline up to the byte buffer handed to `TextDecoder`
(decoding, HTML stripping and whitespace cleanup are outside the claims).
`view.getUint16`/`getUint32` are big-endian; every read in the source is
bounds-guarded before use, so `getD` is exact. -/

def be16 (a : Array Nat) (p : Nat) : Nat := 256 * a.getD p 0 + a.getD (p + 1) 0

/-- The record-info loop
`for (let r = 0; r < numRecords; r++) { if (78 + r*8 + 8 > buf.length) break;
 recordOffsets.push(view.getUint32(78 + r*8)); }` with countdown budget
`numRecords - r`. -/
def readOffsetsGo (buf : Array Nat) : Nat → Nat → List Nat
  | 0, _ => []
  | k + 1, r =>
    if 78 + r * 8 + 8 > buf.size then []
    else be32 buf (78 + r * 8) :: readOffsetsGo buf k (r + 1)

def recordOffsetsOf (buf : Array Nat) : List Nat := readOffsetsGo buf (be16 buf 76) 0

/-- Read `recordOffsets[0]` (only used once the list is known non-empty). -/
def mobiRec0Start (buf : Array Nat) : Nat := (recordOffsetsOf buf).headD 0

/-- Read `recordOffsets.length > 1 ? recordOffsets[1] : buf.length`. -/
def mobiRec0End (buf : Array Nat) : Nat :=
  if 1 < (recordOffsetsOf buf).length then (recordOffsetsOf buf).getD 1 0 else buf.size

def mobiCompression (buf : Array Nat) : Nat := be16 buf (mobiRec0Start buf)

def mobiTextLength (buf : Array Nat) : Nat := be32 buf (mobiRec0Start buf + 4)

def mobiRecordCount (buf : Array Nat) : Nat := be16 buf (mobiRec0Start buf + 8)

def mobiEncryption (buf : Array Nat) : Nat := be16 buf (mobiRec0Start buf + 12)

/-- The record-extraction loop `for (let r = startRec; r < endRec; r++)`
(`startRec = 1`), skipping records starting past the end of the file and
decoding each slice according to the compression mode; countdown budget
`endRec - r`. -/
def collectGo (buf : Array Nat) (offsets : List Nat) (compression : Nat) :
    Nat → Nat → List (Array Nat)
  | 0, _ => []
  | k + 1, r =>
    let start := offsets.getD r 0
    if start ≥ buf.size then collectGo buf offsets compression k (r + 1)
    else
      let endB := if r + 1 < offsets.length then offsets.getD (r + 1) 0 else buf.size
      let recordData := buf.extract start endB
      let decoded := if compression = 1 then recordData else palmDocDecompress recordData.toList
      decoded :: collectGo buf offsets compression k (r + 1)

/-- The list `textParts` of decoded record buffers. -/
def mobiTextParts (buf : Array Nat) : List (Array Nat) :=
  let offsets := recordOffsetsOf buf
  let endRec := min (1 + mobiRecordCount buf) offsets.length
  collectGo buf offsets (mobiCompression buf) (endRec - 1) 1

/-- Write `combined.set(src, off)` for an in-bounds source slice. -/
def copyInto (c : Array Nat) (off : Nat) (src : Array Nat) : Array Nat :=
  (List.range src.size).foldl (fun acc i => acc.setD (off + i) (src.getD i 0)) c

/-- The fill loop over `textParts`:
`copyLen = Math.min(part.length, combined.length - offset); if (copyLen <= 0) break;
 combined.set(part.subarray(0, copyLen), offset); offset += copyLen;`. -/
def fillGo : List (Array Nat) → Array Nat → Nat → Array Nat
  | [], c, _ => c
  | p :: ps, c, off =>
    let copyLen := min p.size (c.size - off)
    if copyLen = 0 then c
    else fillGo ps (copyInto c off (p.extract 0 copyLen)) (off + copyLen)

def errTooSmall : String := "File too small to be a valid MOBI file."

def errNotEnough : String := "Invalid MOBI file: not enough records."

def errNoEntries : String := "Invalid MOBI file: no record entries found."

def errRec0OOB : String := "Invalid MOBI file: record 0 out of bounds."

def errRec0Short : String := "Invalid MOBI file: record 0 header too short."

def errDRM : String :=
  "This MOBI file is DRM-protected and cannot be converted. Only unprotected .mobi/.prc files are supported."

def errCompression : String :=
  "Unsupported MOBI compression type. Only uncompressed and PalmDOC-compressed files are supported."

/-- Function `extractMobiText` up to (and including) the construction of the
`combined` buffer handed to `TextDecoder`: validity checks in source
order, record decoding, and the length-capped concatenation. -/
def extractMobiText (buf : Array Nat) : Except String (Array Nat) :=
  if buf.size < 78 then Except.error errTooSmall
  else if be16 buf 76 < 2 then Except.error errNotEnough
  else if (recordOffsetsOf buf).length = 0 then Except.error errNoEntries
  else if mobiRec0Start buf ≥ buf.size then Except.error errRec0OOB
  else if mobiRec0End buf - mobiRec0Start buf < 14 then Except.error errRec0Short
  else if mobiRec0Start buf + 14 > buf.size then Except.error errRec0Short
  else if mobiEncryption buf ≠ 0 then Except.error errDRM
  else if mobiCompression buf ≠ 1 ∧ mobiCompression buf ≠ 2 then Except.error errCompression
  else
    let textParts := mobiTextParts buf
    let totalLen := (textParts.map Array.size).sum
    let combined := Array.mkArray (min totalLen (mobiTextLength buf)) 0
    Except.ok (fillGo textParts combined 0)

/-- A 110-byte PDB file with 2 records whose PalmDOC header declares
encryption type 1: record 0 spans bytes 94..110, the encryption field at
record offset 12 (file offset 106) is 1. -/
def mobiDrmExample : Array Nat :=
  ((((Array.mkArray 110 0).setD 77 2).setD 81 94).setD 89 110).setD 107 1

/-- A 116-byte PDB file with 2 records, compression 1 (uncompressed), no
encryption, `textLength = 4`, `recordCount = 1`; record 1 spans bytes
110..116, so 6 decoded bytes are capped at 4. -/
def mobiOkExample : Array Nat :=
  ((((((Array.mkArray 116 0).setD 77 2).setD 81 94).setD 89 110).setD 95 1).setD 101 4).setD 103 1

/-! ## Magic-byte file-type detection (`SIGS` / `detect`, smart-drop.js)

`detect` receives the first 16 bytes of the dropped file (`file.slice(0,
16)`), the file name and the browser-reported MIME type (`file.type`).
File names are modelled as `List Char`. -/

structure Fmt where
  mime : String
  fext : String
  label : String
  offsets : List (Nat × List Nat)
deriving DecidableEq

/-- Test `sig.every((b, i) => buf[offset + i] === b)` starting at index `i`. -/
def sigBytesMatch (buf : Array Nat) (off : Nat) : Nat → List Nat → Bool
  | _, [] => true
  | i, b :: rest => (buf.getD (off + i) 0 == b) && sigBytesMatch buf off (i + 1) rest

/-- Test `buf.length >= offset + sig.length && sig.every(...)`. -/
def pairMatch (buf : Array Nat) (off : Nat) (sig : List Nat) : Bool :=
  decide (off + sig.length ≤ buf.size) && sigBytesMatch buf off 0 sig

/-- Some `(offset, sig)` pair of the entry matches. -/
def sigMatch (buf : Array Nat) (fmt : Fmt) : Bool :=
  fmt.offsets.any (fun p => pairMatch buf p.1 p.2)

/-- The HEIC entry (seven `ftyp` brands at offset 4). -/
def heicFmt : Fmt :=
  ⟨"image/heic", "heic", "HEIC",
    [(4, [0x66, 0x74, 0x79, 0x70, 0x68, 0x65, 0x69, 0x63]),
     (4, [0x66, 0x74, 0x79, 0x70, 0x68, 0x65, 0x69, 0x78]),
     (4, [0x66, 0x74, 0x79, 0x70, 0x68, 0x65, 0x76, 0x63]),
     (4, [0x66, 0x74, 0x79, 0x70, 0x6D, 0x69, 0x66, 0x31]),
     (4, [0x66, 0x74, 0x79, 0x70, 0x6D, 0x73, 0x66, 0x31]),
     (4, [0x66, 0x74, 0x79, 0x70, 0x68, 0x65, 0x69, 0x66]),
     (4, [0x66, 0x74, 0x79, 0x70, 0x68, 0x65, 0x76, 0x78])]⟩

/-- The AVIF entry (two `ftyp` brands at offset 4). -/
def avifFmt : Fmt :=
  ⟨"image/avif", "avif", "AVIF",
    [(4, [0x66, 0x74, 0x79, 0x70, 0x61, 0x76, 0x69, 0x66]),
     (4, [0x66, 0x74, 0x79, 0x70, 0x61, 0x76, 0x69, 0x73])]⟩

/-- The `SIGS` table, in source order. -/
def SIGS : List Fmt :=
  [heicFmt,
   avifFmt,
   ⟨"image/png", "png", "PNG", [(0, [0x89, 0x50, 0x4E, 0x47])]⟩,
   ⟨"image/jpeg", "jpg", "JPG", [(0, [0xFF, 0xD8, 0xFF])]⟩,
   ⟨"image/webp", "webp", "WebP", [(8, [0x57, 0x45, 0x42, 0x50])]⟩,
   ⟨"image/gif", "gif", "GIF", [(0, [0x47, 0x49, 0x46])]⟩,
   ⟨"image/bmp", "bmp", "BMP", [(0, [0x42, 0x4D])]⟩,
   ⟨"image/tiff", "tiff", "TIFF", [(0, [0x49, 0x49, 0x2A, 0x00]), (0, [0x4D, 0x4D, 0x00, 0x2A])]⟩,
   ⟨"image/x-icon", "ico", "ICO", [(0, [0x00, 0x00, 0x01, 0x00])]⟩,
   ⟨"image/svg+xml", "svg", "SVG", []⟩,
   ⟨"application/pdf", "pdf", "PDF", [(0, [0x25, 0x50, 0x44, 0x46])]⟩,
   ⟨"video/mp4", "mp4", "MP4", [(4, [0x66, 0x74, 0x79, 0x70])]⟩,
   ⟨"video/webm", "webm", "WebM", [(0, [0x1A, 0x45, 0xDF, 0xA3])]⟩,
   ⟨"audio/wav", "wav", "WAV", [(8, [0x57, 0x41, 0x56, 0x45])]⟩,
   ⟨"audio/ogg", "ogg", "OGG", [(0, [0x4F, 0x67, 0x67, 0x53])]⟩,
   ⟨"audio/flac", "flac", "FLAC", [(0, [0x66, 0x4C, 0x61, 0x43])]⟩,
   ⟨"audio/mpeg", "mp3", "MP3",
     [(0, [0x49, 0x44, 0x33]), (0, [0xFF, 0xFB]), (0, [0xFF, 0xF3]), (0, [0xFF, 0xF2])]⟩,
   ⟨"font/ttf", "ttf", "TTF", [(0, [0x00, 0x01, 0x00, 0x00])]⟩,
   ⟨"font/otf", "otf", "OTF", [(0, [0x4F, 0x54, 0x54, 0x4F])]⟩,
   ⟨"font/woff", "woff", "WOFF", [(0, [0x77, 0x4F, 0x46, 0x46])]⟩]

/-- ASCII lower-casing of one char (what `toLowerCase` does on the ASCII
extensions involved). -/
def lowerChar (c : Char) : Char :=
  if 65 ≤ c.toNat ∧ c.toNat ≤ 90 then Char.ofNat (c.toNat + 32) else c

/-- The segment of the name after the last `'.'` (the whole name when it
has no dot): `name.split('.').pop()`. -/
def lastSegGo : List Char → List Char → List Char
  | [], cur => cur
  | c :: rest, cur => if c = '.' then lastSegGo rest [] else lastSegGo rest (cur ++ [c])

/-- Compute `(file.name || '').split('.').pop().toLowerCase()`. -/
def extOf (name : List Char) : List Char := (lastSegGo name []).map lowerChar

/-- Function `detect(file)`: first signature match in `SIGS` order, then the
extension / MIME-type fallbacks, else `null`. -/
def detect (buf : Array Nat) (name : List Char) (ftype : String) : Option Fmt :=
  match SIGS.find? (fun fmt => sigMatch buf fmt) with
  | some fmt => some fmt
  | none =>
    let fext := extOf name
    if fext = "svg".data ∨ ftype = "image/svg+xml" then
      SIGS.find? (fun s => s.mime == "image/svg+xml")
    else if fext = "ico".data then SIGS.find? (fun s => s.mime == "image/x-icon")
    else if fext = "tif".data ∨ fext = "tiff".data then
      SIGS.find? (fun s => s.mime == "image/tiff")
    else if fext = "avif".data then SIGS.find? (fun s => s.mime == "image/avif")
    else if fext = "mp3".data then SIGS.find? (fun s => s.mime == "audio/mpeg")
    else if fext = "wav".data then SIGS.find? (fun s => s.mime == "audio/wav")
    else if fext = "ogg".data then SIGS.find? (fun s => s.mime == "audio/ogg")
    else if fext = "flac".data then SIGS.find? (fun s => s.mime == "audio/flac")
    else if fext = "m4a".data then some ⟨"audio/mp4", "m4a", "M4A", []⟩
    else if fext = "aac".data then some ⟨"audio/aac", "aac", "AAC", []⟩
    else if fext = "epub".data then some ⟨"application/epub+zip", "epub", "EPUB", []⟩
    else if fext = "docx".data then
      some ⟨"application/vnd.openxmlformats-officedocument.wordprocessingml.document",
        "docx", "DOCX", []⟩
    else if fext = "rtf".data then some ⟨"application/rtf", "rtf", "RTF", []⟩
    else if fext = "mobi".data ∨ fext = "prc".data then
      some ⟨"application/x-mobipocket-ebook", "mobi", "MOBI", []⟩
    else if fext = "ttf".data then SIGS.find? (fun s => s.mime == "font/ttf")
    else if fext = "otf".data then SIGS.find? (fun s => s.mime == "font/otf")
    else if fext = "woff".data then SIGS.find? (fun s => s.mime == "font/woff")
    else if fext = "mov".data then some ⟨"video/quicktime", "mov", "MOV", []⟩
    else if fext = "avi".data then some ⟨"video/x-msvideo", "avi", "AVI", []⟩
    else if fext = "mkv".data then some ⟨"video/x-matroska", "mkv", "MKV", []⟩
    else if fext = "zip".data then some ⟨"application/zip", "zip", "ZIP", []⟩
    else none

/-- The extensions recognised by `detect`'s fallback chain (the claim's
"recognized fallbacks"). -/
def fallbackExts : List (List Char) :=
  ["svg".data, "ico".data, "tif".data, "tiff".data, "avif".data, "mp3".data, "wav".data,
   "ogg".data, "flac".data, "m4a".data, "aac".data, "epub".data, "docx".data, "rtf".data,
   "mobi".data, "prc".data, "ttf".data, "otf".data, "woff".data, "mov".data, "avi".data,
   "mkv".data, "zip".data]

/-! ## GIF frame-deduplication delay accounting (`videoToGif`, gif-engine.js)

The encode loop is modelled on the sequence of per-frame sample buffers
(what `sampleGridPixels` returns, 256 RGB triples = 768 bytes per
processed frame); seeking, drawing and palette mapping do not touch the
delay bookkeeping.  `pixelDiffBelow(a, b, 0.02)` computes
`diff / (a.length / 3) < 0.02`; for the 768-byte buffers the
double-precision comparison coincides with the exact rational one, which
is `50 * diff < a.length / 3` (`diff / 256 < 0.02  ↔  diff ≤ 5`). -/

/-- The triple-difference count of `pixelDiffBelow`:
`if (|ar-br| + |ag-bg| + |ab-bb| > 30) diff++` over `i = 0, 3, 6, ...`. -/
def diffTriples (a b : Array Nat) : Nat :=
  (List.range ((a.size + 2) / 3)).foldl
    (fun diff k =>
      let i := 3 * k
      let dr := Int.natAbs ((a.getD i 0 : Int) - (b.getD i 0 : Int))
      let dg := Int.natAbs ((a.getD (i + 1) 0 : Int) - (b.getD (i + 1) 0 : Int))
      let db := Int.natAbs ((a.getD (i + 2) 0 : Int) - (b.getD (i + 2) 0 : Int))
      if dr + dg + db > 30 then diff + 1 else diff) 0

/-- Test `(diff / total) < DEDUP_THRESHOLD` with `DEDUP_THRESHOLD = 0.02 = 1/50`
and `total = a.length / 3`. -/
def pixelDiffBelow (a b : Array Nat) : Bool :=
  50 * diffTriples a b < a.size / 3

/-- Compute `Math.round(1000 / fps)` for a positive integer fps (round half up). -/
def frameDelayOf (fps : Nat) : Nat := (2000 + fps) / (2 * fps)

/-- The loop state: `prevSamples`, `prevDelay`, and the list of `delay`
values passed to `gif.writeFrame` so far. -/
structure GifAcc where
  prevSamples : Option (Array Nat)
  prevDelay : Nat
  delays : List Nat
deriving DecidableEq

/-- One iteration of the encode loop: a near-duplicate frame only extends
`prevDelay`; otherwise the frame is written with the accumulated
`prevDelay` and `prevDelay` resets to `frameDelay`. -/
def gifStep (frameDelay : Nat) (s : GifAcc) (samples : Array Nat) : GifAcc :=
  match s.prevSamples with
  | some prev =>
    if pixelDiffBelow prev samples then
      { s with prevDelay := s.prevDelay + frameDelay }
    else
      ⟨some samples, frameDelay, s.delays ++ [s.prevDelay]⟩
  | none => ⟨some samples, frameDelay, s.delays ++ [s.prevDelay]⟩

/-- The whole encode loop over the processed frames, starting from
`prevSamples = null`, `prevDelay = frameDelay`, no frames written. -/
def gifRun (frameDelay : Nat) (frames : List (Array Nat)) : GifAcc :=
  frames.foldl (gifStep frameDelay) ⟨none, frameDelay, []⟩

/-- A run of 768 zero bytes: the sample buffer of a uniformly black frame. -/
def z768 : Array Nat := Array.mkArray 768 0

/-! ## RTF parsing (`parseRtf`, part_005)

JS strings are sequences of UTF-16 code units; both the input and the
produced text are modelled as `List Nat` of code units (`'{' = 123`,
`'}' = 125`, `'\' = 92`, `''' = 39`, `' ' = 32`).  The index-based
`while (i < len)` loop is embedded on the remaining suffix with an
iteration budget; every iteration consumes at least one code unit, so a
budget of the input length is sufficient (`rtfGo_fuel`).  `parseInt` is
modelled exactly on the mathematical integers (JS doubles lose precision
only beyond 2^53 digits' worth of parameter, far outside anything the
claims involve). -/

/-- Test `/[a-zA-Z]/.test(c)`. -/
def isLetterCU (c : Nat) : Bool := (65 ≤ c && c ≤ 90) || (97 ≤ c && c ≤ 122)

/-- Test `/[0-9]/.test(c)`. -/
def isDigitCU (c : Nat) : Bool := 48 ≤ c && c ≤ 57

/-- Test `/[a-zA-Z*]/.test(c)` (the class used when peeking a group's first
control word; `'*' = 42`). -/
def isWordStarCU (c : Nat) : Bool := isLetterCU c || c == 42

/-- Code units of an ASCII string. -/
def str2cu (s : String) : List Nat := s.data.map Char.toNat

/-- The groups skipped entirely. -/
def skipGroups : List (List Nat) :=
  [str2cu "fonttbl", str2cu "colortbl", str2cu "stylesheet", str2cu "info", str2cu "header",
   str2cu "footer", str2cu "headerl", str2cu "headerr", str2cu "headerf", str2cu "footerl",
   str2cu "footerr", str2cu "footerf", str2cu "pict", str2cu "object", str2cu "fldinst",
   str2cu "*"]

/-- JS whitespace (the set trimmed by `trim()` and skipped by `parseInt`). -/
def jsIsSpaceCU (c : Nat) : Bool :=
  c == 9 || c == 10 || c == 11 || c == 12 || c == 13 || c == 32 || c == 0xA0 || c == 0x1680 ||
  (0x2000 ≤ c && c ≤ 0x200A) || c == 0x2028 || c == 0x2029 || c == 0x202F || c == 0x205F ||
  c == 0x3000 || c == 0xFEFF

/-- The value of a digit in the given base (hex digits `0-9a-fA-F`). -/
def digitValCU (base c : Nat) : Option Nat :=
  let v :=
    if 48 ≤ c ∧ c ≤ 57 then some (c - 48)
    else if 97 ≤ c ∧ c ≤ 122 then some (c - 87)
    else if 65 ≤ c ∧ c ≤ 90 then some (c - 55)
    else none
  match v with
  | some n => if n < base then some n else none
  | none => none

/-- The longest prefix of base-`base` digits, `none` when there is none. -/
def parseDigits (base : Nat) (l : List Nat) : Option Nat :=
  let ds := l.takeWhile (fun c => (digitValCU base c).isSome)
  if ds = [] then none
  else some (ds.foldl (fun acc c => acc * base + (digitValCU base c).getD 0) 0)

/-- Function `parseInt(string, base)`: skip leading whitespace, optional sign, a
`0x`/`0X` prefix when `base = 16`, then the longest digit prefix;
`none` models `NaN`. -/
def parseIntJS (base : Nat) (l : List Nat) : Option Int :=
  let l1 := l.dropWhile jsIsSpaceCU
  let sgn : Bool × List Nat :=
    match l1 with
    | 43 :: rest => (false, rest)
    | 45 :: rest => (true, rest)
    | _ => (false, l1)
  let l3 :=
    if base = 16 then
      match sgn.2 with
      | 48 :: 120 :: rest => rest
      | 48 :: 88 :: rest => rest
      | _ => sgn.2
    else sgn.2
  match parseDigits base l3 with
  | none => none
  | some n => some (if sgn.1 then -(n : Int) else (n : Int))

/-- Function `String.fromCharCode(n)`: `ToUint16`, i.e. the code modulo 65536. -/
def jsFromCharCode (n : Int) : Nat := ((n % 65536 + 65536) % 65536).toNat

/-- The optional numeric parameter of a control word: an optional `'-'`
followed by a run of digits; returns the parameter's code units and the
rest of the input. -/
def readParamCU : List Nat → List Nat × List Nat
  | [] => ([], [])
  | c :: rest =>
    if c = 45 then (45 :: rest.takeWhile isDigitCU, rest.dropWhile isDigitCU)
    else if isDigitCU c then
      ((c :: rest).takeWhile isDigitCU, (c :: rest).dropWhile isDigitCU)
    else ([], c :: rest)

/-- Consume the optional numeric parameter and one optional trailing
space after a control word. -/
def consumeParamSpace (s1 : List Nat) : List Nat :=
  let s2 := (readParamCU s1).2
  match s2 with
  | sp :: t => if sp = 32 then t else s2
  | [] => []

/-- After `\uN`, skip one replacement character unless the next code unit
is a backslash or a brace. -/
def skipRepl : List Nat → List Nat
  | [] => []
  | e :: t => if e ≠ 92 ∧ e ≠ 123 ∧ e ≠ 125 then t else e :: t

/-- The translation of a recognised control word (everything else emits
nothing). -/
def controlOut (w : List Nat) : List Nat :=
  if w = str2cu "par" ∨ w = str2cu "line" then [10]
  else if w = str2cu "tab" then [9]
  else if w = str2cu "lquote" then [0x2018]
  else if w = str2cu "rquote" then [0x2019]
  else if w = str2cu "ldblquote" then [0x201C]
  else if w = str2cu "rdblquote" then [0x201D]
  else if w = str2cu "bullet" then [0x2022]
  else if w = str2cu "endash" then [0x2013]
  else if w = str2cu "emdash" then [0x2014]
  else []

/-- The main `while (i < len)` loop of `parseRtf`, producing the text
emitted from the current position onwards.  Branches in source order:
`'{'` (with the skip-keyword peek), `'}'`, the skip-mode fall-through,
`'\'` (escapes, hex escape, control word with `\u` special-cased), raw
CR/LF, and plain text. -/
def rtfGo : Nat → List Nat → Int → Int → List Nat
  | 0, _, _, _ => []
  | _ + 1, [], _, _ => []
  | fuel + 1, c :: rest, depth, skipG =>
    if c = 123 then
      let newSkip :=
        match rest with
        | b :: tl =>
          if b = 92 then
            if skipGroups.contains (tl.takeWhile isWordStarCU) ∧ skipG = 0 then depth + 1
            else skipG
          else skipG
        | [] => skipG
      rtfGo fuel rest (depth + 1) newSkip
    else if c = 125 then
      rtfGo fuel rest (depth - 1) (if skipG > 0 ∧ depth = skipG then 0 else skipG)
    else if skipG > 0 then rtfGo fuel rest depth skipG
    else if c = 92 then
      match rest with
      | [] => []
      | d :: tl =>
        if d = 92 then 92 :: rtfGo fuel tl depth skipG
        else if d = 123 then 123 :: rtfGo fuel tl depth skipG
        else if d = 125 then 125 :: rtfGo fuel tl depth skipG
        else if d = 126 then 0xA0 :: rtfGo fuel tl depth skipG
        else if d = 45 then 0xAD :: rtfGo fuel tl depth skipG
        else if d = 95 then 0x2011 :: rtfGo fuel tl depth skipG
        else if d = 39 then
          match parseIntJS 16 (tl.take 2) with
          | some code => jsFromCharCode code :: rtfGo fuel (tl.drop 2) depth skipG
          | none => rtfGo fuel (tl.drop 2) depth skipG
        else
          let w := (d :: tl).takeWhile isLetterCU
          let s1 := (d :: tl).dropWhile isLetterCU
          let s3 := consumeParamSpace s1
          if w = str2cu "u" then
            let emitted :=
              match parseIntJS 10 (readParamCU s1).1 with
              | some code => [jsFromCharCode (if code < 0 then code + 65536 else code)]
              | none => []
            emitted ++ rtfGo fuel (skipRepl s3) depth skipG
          else
            controlOut w ++ rtfGo fuel s3 depth skipG
    else if c = 13 ∨ c = 10 then rtfGo fuel rest depth skipG
    else c :: rtfGo fuel rest depth skipG

/-- Step `.replace(/\n{3,}/g, '\n\n')`: collapse runs of three or more
newlines into two. -/
def collapseNLGo : Nat → List Nat → List Nat
  | 0, _ => []
  | _ + 1, [] => []
  | fuel + 1, c :: rest =>
    if c = 10 then
      let run := 1 + (rest.takeWhile (fun x => x == 10)).length
      (if 3 ≤ run then [10, 10] else List.replicate run 10)
        ++ collapseNLGo fuel (rest.dropWhile (fun x => x == 10))
    else c :: collapseNLGo fuel rest

/-- Step `.trim()`. -/
def jsTrim (l : List Nat) : List Nat :=
  ((l.dropWhile jsIsSpaceCU).reverse.dropWhile jsIsSpaceCU).reverse

/-- Function `parseRtf(rtfString)`: run the loop from depth 0 with no active skip
group, then collapse blank lines and trim. -/
def parseRtf (s : List Nat) : List Nat :=
  let raw := rtfGo s.length s 0 0
  jsTrim (collapseNLGo raw.length raw)

/-- The position just after the closing brace matching the current
position (counting every raw `'{'`/`'}'` code unit, which is exactly how
the parser's `depth` counter treats braces): the claim's "matching
closing brace of the skipped group". -/
def findClose : Nat → List Nat → Nat → Option (List Nat)
  | 0, _, _ => none
  | _ + 1, [], _ => none
  | fuel + 1, c :: rest, rel =>
    if c = 123 then findClose fuel rest (rel + 1)
    else if c = 125 then (if rel = 0 then some rest else findClose fuel rest (rel - 1))
    else findClose fuel rest rel

theorem palmDocGo_nil (f : Nat) (out : Array Nat) : palmDocGo f [] out = out := by
  cases f <;> rfl

theorem dropLenLe (n : Nat) (l : List Nat) : (l.drop n).length ≤ l.length := by
  simp only [List.length_drop]
  omega

/-- The iteration budget is irrelevant as soon as it covers the input
length: this is exactly the termination argument of the JS `while` loop
(the input cursor strictly increases on every iteration). -/
theorem palmDocGo_fuel : ∀ f g (l : List Nat) (out : Array Nat),
    l.length ≤ f → l.length ≤ g → palmDocGo f l out = palmDocGo g l out := by
  intro f
  induction f using Nat.strong_induction_on with
  | _ f ih =>
    intro g l out hf hg
    match l with
    | [] => rw [palmDocGo_nil, palmDocGo_nil]
    | b :: rest =>
      simp only [List.length_cons] at hf hg
      cases f with
      | zero => omega
      | succ f =>
        cases g with
        | zero => omega
        | succ g =>
          have hf' : rest.length ≤ f := by omega
          have hg' : rest.length ≤ g := by omega
          simp only [palmDocGo]
          split
          · exact ih f (Nat.lt_succ_self f) g _ _ hf' hg'
          · split
            · exact ih f (Nat.lt_succ_self f) g _ _
                (le_trans (dropLenLe _ _) hf') (le_trans (dropLenLe _ _) hg')
            · split
              · cases rest with
                | nil => rfl
                | cons n rest2 =>
                  have h2 : rest2.length ≤ f := by simp at hf'; omega
                  have h3 : rest2.length ≤ g := by simp at hg'; omega
                  exact ih f (Nat.lt_succ_self f) g _ _ h2 h3
              · split
                · exact ih f (Nat.lt_succ_self f) g _ _ hf' hg'
                · exact ih f (Nat.lt_succ_self f) g _ _ hf' hg'

theorem palmDoc_check : palmDocDecompress [0, 65, 3, 1, 2, 3] = #[0, 65, 1, 2, 3] := by decide

theorem backRefCopy_oob (out : Array Nat) (dist : Nat) :
    ∀ len, out.size + len ≤ dist →
      (backRefCopy out dist len).toList = out.toList ++ List.replicate len 0 := by
  intro len
  induction len with
  | zero => simp [backRefCopy]
  | succ n ih =>
    intro h
    have hn : out.size + n ≤ dist := by omega
    simp only [backRefCopy, List.range_succ, List.foldl_append, List.foldl_cons, List.foldl_nil]
    have hstep : backRefStep out.size dist ((List.range n).foldl (backRefStep out.size dist) out) n
        = ((List.range n).foldl (backRefStep out.size dist) out).push 0 := by
      simp only [backRefStep]
      rw [if_neg]
      intro hc
      have : (0 : Int) ≤ (out.size : Int) - (dist : Int) + (n : Int) := hc.1
      omega
    rw [hstep]
    have := ih hn
    simp only [backRefCopy] at this
    simp [this, List.replicate_succ']

/-- Claim C9: `palmDocDecompress` is total.  (a) a two-byte token truncated
at the end of the input ends decoding; (b) a literal-run count 1..8 with
fewer bytes remaining copies only the bytes that remain; (c) a
back-reference whose source positions all fall before the start of the
output contributes zero bytes in place of the missing data; (d) the
iteration budget is irrelevant once it covers the input length — the
formal counterpart of termination of the `while` loop, whose input cursor
strictly increases on every iteration. -/
theorem palmDocDecompress_total :
    (∀ f b out, 0x80 ≤ b → palmDocGo (f + 1) [b] out = out) ∧
    (∀ f b rest out, 1 ≤ b → b ≤ 8 → rest.length ≤ b →
      palmDocGo (f + 1) (b :: rest) out = out ++ rest.toArray) ∧
    (∀ out dist len, out.size + len ≤ dist →
      (backRefCopy out dist len).toList = out.toList ++ List.replicate len 0) ∧
    (∀ f g data out, data.length ≤ f → data.length ≤ g →
      palmDocGo f data out = palmDocGo g data out) := by
  refine ⟨?_, ?_, ?_, ?_⟩
  · intro f b out hb
    simp only [palmDocGo]
    rw [if_neg (by omega), if_neg (by omega), if_pos (by omega)]
  · intro f b rest out hb1 hb8 hlen
    simp only [palmDocGo]
    rw [if_neg (by omega), if_pos ⟨hb1, hb8⟩, List.drop_eq_nil_of_le (by omega),
      List.take_of_length_le (by omega), palmDocGo_nil]
  · exact fun out dist len h => backRefCopy_oob out dist len h
  · exact fun f g data out hf hg => palmDocGo_fuel f g data out hf hg

/-- Witness for C9 at concrete inputs. -/
theorem palmDocDecompress_total_witness :
    palmDocGo 3 [0x90] #[5] = #[5] ∧
    palmDocGo 2 (3 :: [7, 8]) #[] = #[] ++ [7, 8].toArray ∧
    (backRefCopy #[] 5 2).toList = (#[] : Array Nat).toList ++ List.replicate 2 0 ∧
    palmDocGo 7 [0, 65] #[] = palmDocGo 2 [0, 65] #[] := by
  refine ⟨palmDocDecompress_total.1 2 0x90 #[5] (by decide),
    palmDocDecompress_total.2.1 1 3 [7, 8] #[] (by decide) (by decide) (by decide),
    palmDocDecompress_total.2.2.1 #[] 5 2 (by decide),
    palmDocDecompress_total.2.2.2 7 2 [0, 65] #[] (by decide) (by decide)⟩

/-- Claim C1 (code-bug evidence): contrary to the documented PalmDOC
algorithm (and to the decompressor's own inline comment), the branch order
`byte >= 0x80` captures the range 0xC0..0xFF, so those bytes are consumed
as two-byte LZ77 back-reference tokens and the space-plus-character branch
is unreachable: `[0xC0, 0x41]` decodes to four zero bytes (an
out-of-range back-reference) instead of `[0x20, 0x40, 0x41]`, and a
trailing `0xC1` decodes to nothing instead of `[0x20, 0x41]`. -/
theorem palmDocDecompress_c0_range_is_backref :
    palmDocDecompress [0xC0, 0x41] = #[0, 0, 0, 0] ∧
    palmDocDecompress [0xC0, 0x41] ≠ #[0x20, 0x40, 0x41] ∧
    palmDocDecompress [0xC1] = #[] ∧
    palmDocDecompress [0xC1] ≠ #[0x20, 0x41] := by decide

/-! ### Array update lemmas -/

theorem getD_setD_ne (a : Array Nat) (i k v : Nat) (h : k ≠ i) :
    (a.setD i v).getD k 0 = a.getD k 0 := by
  simp only [Array.getD_eq_get?]
  unfold Array.setD
  split
  · rw [Array.getElem?_set_ne]
    exact Ne.symm h
  · rfl

theorem getD_setD_eq (a : Array Nat) (i v : Nat) (h : i < a.size) :
    (a.setD i v).getD i 0 = v := by
  have := Array.getElem?_setD_eq a h v
  simp [Array.getD_eq_get?, this]

theorem getD_oob (a : Array Nat) (i : Nat) (h : a.size ≤ i) : a.getD i 0 = 0 := by
  simp only [Array.getD_eq_get?]
  rw [Array.getElem?_len_le a h]
  rfl

theorem size_writeStr4 (a : Array Nat) (p : Nat) (s : List Nat) :
    (writeStr4 a p s).size = a.size := by
  simp [writeStr4]

theorem getD_writeStr4_out (a : Array Nat) (p : Nat) (s : List Nat) (k : Nat)
    (h : k < p ∨ p + 4 ≤ k) : (writeStr4 a p s).getD k 0 = a.getD k 0 := by
  unfold writeStr4
  rw [getD_setD_ne _ _ _ _ (by omega), getD_setD_ne _ _ _ _ (by omega),
    getD_setD_ne _ _ _ _ (by omega), getD_setD_ne _ _ _ _ (by omega)]

theorem getD_writeStr4_in (a : Array Nat) (p : Nat) (s : List Nat) (j : Nat)
    (hj : j < 4) (h : p + j < a.size) :
    (writeStr4 a p s).getD (p + j) 0 = s.getD j 0 := by
  unfold writeStr4
  match j, hj with
  | 0, _ =>
    rw [getD_setD_ne _ _ _ _ (by omega), getD_setD_ne _ _ _ _ (by omega),
      getD_setD_ne _ _ _ _ (by omega)]
    exact getD_setD_eq _ _ _ (by omega)
  | 1, _ =>
    rw [getD_setD_ne _ _ _ _ (by omega), getD_setD_ne _ _ _ _ (by omega)]
    exact getD_setD_eq _ _ _ (by simpa using h)
  | 2, _ =>
    rw [getD_setD_ne _ _ _ _ (by omega)]
    exact getD_setD_eq _ _ _ (by simpa using h)
  | 3, _ =>
    exact getD_setD_eq _ _ _ (by simpa using h)

theorem chr4_writeStr4_out (a : Array Nat) (p : Nat) (s : List Nat) (c : Nat)
    (h : c + 4 ≤ p ∨ p + 4 ≤ c) : chr4 (writeStr4 a p s) c = chr4 a c := by
  simp only [chr4]
  rw [getD_writeStr4_out _ _ _ _ (by omega), getD_writeStr4_out _ _ _ _ (by omega),
    getD_writeStr4_out _ _ _ _ (by omega), getD_writeStr4_out _ _ _ _ (by omega)]

theorem chr4_writeStr4_self (a : Array Nat) (p : Nat) (h : p + 4 ≤ a.size) :
    chr4 (writeStr4 a p isom4) p = isom4 := by
  simp only [chr4]
  have h0 := getD_writeStr4_in a p isom4 0 (by omega) (by omega)
  have h1 := getD_writeStr4_in a p isom4 1 (by omega) (by omega)
  have h2 := getD_writeStr4_in a p isom4 2 (by omega) (by omega)
  have h3 := getD_writeStr4_in a p isom4 3 (by omega) (by omega)
  simp only [Nat.add_zero] at h0
  rw [h0, h1, h2, h3]
  rfl

theorem chr4_qt_bound (a : Array Nat) (p : Nat) (h : chr4 a p = qt4) : p + 4 ≤ a.size := by
  by_contra hc
  have : a.getD (p + 3) 0 = 0 := getD_oob a (p + 3) (by omega)
  simp [chr4, qt4, this] at h

theorem isQtBrand_bound (a : Array Nat) (p : Nat) (h : isQtBrand (chr4 a p)) :
    p + 4 ≤ a.size := by
  by_contra hc
  have h3 : a.getD (p + 3) 0 = 0 := getD_oob a (p + 3) (by omega)
  rcases h with h | h | h <;> simp [chr4, qt4, msnv4, mqt4, h3] at h

/-! ### Characterising the compatible-brands loop and the box scan -/

theorem compatGo_eq_firstQt : ∀ fuel (a : Array Nat) (cp endP : Nat),
    compatGo fuel a cp endP =
      (match firstQtGo fuel a cp endP with
       | some c => writeStr4 a c isom4
       | none => a) := by
  intro fuel
  induction fuel with
  | zero => intro a cp endP; rfl
  | succ f ih =>
    intro a cp endP
    simp only [compatGo, firstQtGo]
    split
    · split
      · rfl
      · exact ih a (cp + 4) endP
    · rfl

theorem firstQtGo_some : ∀ fuel (a : Array Nat) (cp endP c : Nat),
    firstQtGo fuel a cp endP = some c →
    cp ≤ c ∧ c + 4 ≤ endP ∧ chr4 a c = qt4 ∧ (c - cp) % 4 = 0 := by
  intro fuel
  induction fuel with
  | zero => intro a cp endP c h; simp [firstQtGo] at h
  | succ f ih =>
    intro a cp endP c h
    simp only [firstQtGo] at h
    by_cases hle : cp + 4 ≤ endP
    · rw [if_pos hle] at h
      by_cases hqt : chr4 a cp = qt4
      · rw [if_pos hqt] at h
        cases h
        exact ⟨Nat.le_refl _, hle, hqt, by omega⟩
      · rw [if_neg hqt] at h
        obtain ⟨h1, h2, h3, h4⟩ := ih a (cp + 4) endP c h
        exact ⟨by omega, h2, h3, by omega⟩
    · rw [if_neg hle] at h
      cases h

theorem firstQtGo_agree (a b : Array Nat) (lo : Nat)
    (hab : ∀ i, lo ≤ i → b.getD i 0 = a.getD i 0) :
    ∀ fuel cp endP, lo ≤ cp → firstQtGo fuel b cp endP = firstQtGo fuel a cp endP := by
  intro fuel
  induction fuel with
  | zero => intro cp endP _; rfl
  | succ f ih =>
    intro cp endP hcp
    have hchr : chr4 b cp = chr4 a cp := by
      simp only [chr4]
      rw [hab cp (by omega), hab (cp + 1) (by omega), hab (cp + 2) (by omega),
        hab (cp + 3) (by omega)]
    simp only [firstQtGo, hchr]
    split
    · split
      · rfl
      · exact ih (cp + 4) endP (by omega)
    · rfl

theorem findFtypGo_some : ∀ fuel (a : Array Nat) (pos p : Nat),
    findFtypGo fuel a pos = some p →
    p + 8 ≤ a.size ∧ p < 4096 ∧ 8 ≤ be32 a p ∧ be32 a p ≤ a.size - p ∧
      chr4 a (p + 4) = ftyp4 := by
  intro fuel
  induction fuel with
  | zero => intro a pos p h; simp [findFtypGo] at h
  | succ f ih =>
    intro a pos p h
    simp only [findFtypGo] at h
    by_cases hc : pos + 8 ≤ a.size ∧ pos < 4096
    · rw [if_pos hc] at h
      by_cases hsz : be32 a pos < 8 ∨ be32 a pos > a.size - pos
      · rw [if_pos hsz] at h; cases h
      · rw [if_neg hsz] at h
        by_cases hft : chr4 a (pos + 4) = ftyp4
        · rw [if_pos hft] at h
          cases h
          push_neg at hsz
          exact ⟨hc.1, hc.2, by omega, hsz.2, hft⟩
        · rw [if_neg hft] at h
          exact ih a (pos + be32 a pos) p h
    · rw [if_neg hc] at h
      cases h

theorem remuxGo_eq_find : ∀ fuel (a : Array Nat) (pos : Nat),
    remuxGo fuel a pos =
      (match findFtypGo fuel a pos with
       | some p => (patchBrands a p (be32 a p), true)
       | none => (a, false)) := by
  intro fuel
  induction fuel with
  | zero => intro a pos; rfl
  | succ f ih =>
    intro a pos
    simp only [remuxGo, findFtypGo]
    split
    · split
      · rfl
      · split
        · rfl
        · exact ih a _
    · rfl

/-- Claim C6: `remuxMovToMp4` throws
`'Not a valid MOV file (no file type header found).'` exactly when the box
scan (from offset 0, headers confined to the first 4096 bytes, stopping
early at a box whose declared size is below 8 or extends past the end of
the file) finds no `ftyp` box, and in that case the byte array coming out
of the scan loop is the untouched input. -/
theorem remuxMovToMp4_error_iff (a : Array Nat) :
    (remuxMovToMp4 a = Except.error noFtypMsg ↔ findFtypGo 4096 a 0 = none) ∧
    ((remuxGo 4096 a 0).2 = false → (remuxGo 4096 a 0).1 = a) := by
  have h := remuxGo_eq_find 4096 a 0
  cases hf : findFtypGo 4096 a 0 with
  | none =>
    rw [hf] at h
    refine ⟨by simp [remuxMovToMp4, h], fun _ => by rw [h]⟩
  | some p =>
    rw [hf] at h
    refine ⟨by simp [remuxMovToMp4, h], fun hfalse => ?_⟩
    rw [h] at hfalse
    simp at hfalse

/-- Witness for C6 on the empty file: the scan finds nothing, the function
throws, and the bytes coming out of the scan are the input. -/
theorem remuxMovToMp4_error_iff_witness :
    (remuxGo 4096 (#[] : Array Nat) 0).1 = #[] ∧ findFtypGo 4096 (#[] : Array Nat) 0 = none := by
  exact ⟨(remuxMovToMp4_error_iff #[]).2 rfl, (remuxMovToMp4_error_iff #[]).1.1 rfl⟩

/-- Claim C2: when `remuxMovToMp4` succeeds, the output has the same length
as the input and differs from it at most inside two 4-byte windows: the
major-brand field at `ftyp + 8` (rewritten to `'isom'`, and only when the
input major brand is `'qt  '`, `'MSNV'` or `'mqt '`) and the first
compatible-brands entry equal to `'qt  '` in the 4-byte-stepped list
starting at `ftyp + 16` and ending at `ftyp + size` (rewritten to
`'isom'`).  Every byte outside those two windows is unchanged. -/
theorem remuxMovToMp4_frame (a out : Array Nat) (h : remuxMovToMp4 a = Except.ok out) :
    ∃ pos, findFtypGo 4096 a 0 = some pos ∧
      out.size = a.size ∧
      (∀ k, (k < pos + 8 ∨ pos + 12 ≤ k) →
        (∀ c, firstQtGo (pos + be32 a pos) a (pos + 16) (pos + be32 a pos) = some c →
          k < c ∨ c + 4 ≤ k) →
        out.getD k 0 = a.getD k 0) ∧
      (isQtBrand (chr4 a (pos + 8)) → chr4 out (pos + 8) = isom4) ∧
      (¬ isQtBrand (chr4 a (pos + 8)) →
        ∀ k, (∀ c, firstQtGo (pos + be32 a pos) a (pos + 16) (pos + be32 a pos) = some c →
          k < c ∨ c + 4 ≤ k) →
        out.getD k 0 = a.getD k 0) ∧
      (∀ c, firstQtGo (pos + be32 a pos) a (pos + 16) (pos + be32 a pos) = some c →
        chr4 out c = isom4) := by
  have hre := remuxGo_eq_find 4096 a 0
  cases hf : findFtypGo 4096 a 0 with
  | none =>
    rw [hf] at hre
    rw [remuxMovToMp4, hre] at h
    cases h
  | some pos =>
    rw [hf] at hre
    rw [remuxMovToMp4, hre] at h
    have hout : out = patchBrands a pos (be32 a pos) := by
      cases h
      rfl
    obtain ⟨hsz8, _, hsz_lb, hsz_ub, _⟩ := findFtypGo_some 4096 a 0 pos hf
    refine ⟨pos, rfl, ?_⟩
    set size := be32 a pos with hsize
    set b1 := if isQtBrand (chr4 a (pos + 8)) then writeStr4 a (pos + 8) isom4 else a with hb1
    have hb1size : b1.size = a.size := by
      rw [hb1]
      split
      · exact size_writeStr4 _ _ _
      · rfl
    have hb1out : ∀ k, (k < pos + 8 ∨ pos + 12 ≤ k) → b1.getD k 0 = a.getD k 0 := by
      intro k hk
      rw [hb1]
      split
      · exact getD_writeStr4_out _ _ _ _ (by omega)
      · rfl
    have hb1agree : ∀ i, pos + 12 ≤ i → b1.getD i 0 = a.getD i 0 :=
      fun i hi => hb1out i (Or.inr hi)
    have hfq : firstQtGo (pos + size) b1 (pos + 16) (pos + size)
        = firstQtGo (pos + size) a (pos + 16) (pos + size) :=
      firstQtGo_agree a b1 (pos + 12) hb1agree (pos + size) (pos + 16) (pos + size) (by omega)
    have houtm : out =
        (match firstQtGo (pos + size) a (pos + 16) (pos + size) with
         | some c => writeStr4 b1 c isom4
         | none => b1) := by
      rw [hout, patchBrands, ← hb1, compatGo_eq_firstQt, hfq]
    have hbrand_b1 : isQtBrand (chr4 a (pos + 8)) → chr4 b1 (pos + 8) = isom4 := by
      intro hbr
      rw [hb1, if_pos hbr]
      exact chr4_writeStr4_self a (pos + 8) (by have := isQtBrand_bound a (pos + 8) hbr; omega)
    cases hq : firstQtGo (pos + size) a (pos + 16) (pos + size) with
    | none =>
      rw [hq] at houtm
      simp only at houtm
      refine ⟨by rw [houtm, hb1size], ?_, ?_, ?_, ?_⟩
      · intro k hk _
        rw [houtm]
        exact hb1out k hk
      · intro hbr
        rw [houtm]
        exact hbrand_b1 hbr
      · intro hbr k _
        rw [houtm, hb1, if_neg hbr]
      · intro c hc
        cases hc
    | some c =>
      rw [hq] at houtm
      simp only at houtm
      obtain ⟨hc16, hcend, hcqt, _⟩ := firstQtGo_some (pos + size) a (pos + 16) (pos + size) c hq
      have hcsize : c + 4 ≤ a.size := by omega
      refine ⟨by rw [houtm, size_writeStr4, hb1size], ?_, ?_, ?_, ?_⟩
      · intro k hk hq2
        have hkc : k < c ∨ c + 4 ≤ k := hq2 c rfl
        rw [houtm, getD_writeStr4_out _ _ _ _ (by omega)]
        exact hb1out k hk
      · intro hbr
        rw [houtm, chr4_writeStr4_out _ _ _ _ (by omega)]
        exact hbrand_b1 hbr
      · intro hbr k hq2
        have hkc : k < c ∨ c + 4 ≤ k := hq2 c rfl
        rw [houtm, getD_writeStr4_out _ _ _ _ (by omega), hb1, if_neg hbr]
      · intro c2 hc2
        cases hc2
        rw [houtm]
        exact chr4_writeStr4_self b1 c (by omega)

/-- Witness for C2 on a minimal 16-byte MOV file whose `ftyp` box has major
brand `'qt  '`: the brand window is rewritten to `'isom'` and every other
byte is unchanged. -/
theorem remuxMovToMp4_frame_witness :
    ∃ pos, findFtypGo 4096
        #[0, 0, 0, 16, 0x66, 0x74, 0x79, 0x70, 0x71, 0x74, 0x20, 0x20, 0, 0, 0, 0] 0
        = some pos ∧
      (#[0, 0, 0, 16, 0x66, 0x74, 0x79, 0x70, 0x69, 0x73, 0x6F, 0x6D, 0, 0, 0, 0] :
        Array Nat).size
        = (#[0, 0, 0, 16, 0x66, 0x74, 0x79, 0x70, 0x71, 0x74, 0x20, 0x20, 0, 0, 0, 0] :
        Array Nat).size ∧
      (∀ k, (k < pos + 8 ∨ pos + 12 ≤ k) →
        (∀ c, firstQtGo
            (pos + be32 #[0, 0, 0, 16, 0x66, 0x74, 0x79, 0x70, 0x71, 0x74, 0x20, 0x20, 0, 0, 0, 0]
              pos)
            #[0, 0, 0, 16, 0x66, 0x74, 0x79, 0x70, 0x71, 0x74, 0x20, 0x20, 0, 0, 0, 0] (pos + 16)
            (pos + be32 #[0, 0, 0, 16, 0x66, 0x74, 0x79, 0x70, 0x71, 0x74, 0x20, 0x20, 0, 0, 0, 0]
              pos) = some c →
          k < c ∨ c + 4 ≤ k) →
        (#[0, 0, 0, 16, 0x66, 0x74, 0x79, 0x70, 0x69, 0x73, 0x6F, 0x6D, 0, 0, 0, 0] :
          Array Nat).getD k 0
          = (#[0, 0, 0, 16, 0x66, 0x74, 0x79, 0x70, 0x71, 0x74, 0x20, 0x20, 0, 0, 0, 0] :
          Array Nat).getD k 0) ∧
      (isQtBrand (chr4 #[0, 0, 0, 16, 0x66, 0x74, 0x79, 0x70, 0x71, 0x74, 0x20, 0x20, 0, 0, 0, 0]
          (pos + 8)) →
        chr4 #[0, 0, 0, 16, 0x66, 0x74, 0x79, 0x70, 0x69, 0x73, 0x6F, 0x6D, 0, 0, 0, 0] (pos + 8)
          = isom4) ∧
      (¬ isQtBrand (chr4 #[0, 0, 0, 16, 0x66, 0x74, 0x79, 0x70, 0x71, 0x74, 0x20, 0x20, 0, 0, 0, 0]
          (pos + 8)) →
        ∀ k, (∀ c, firstQtGo
            (pos + be32 #[0, 0, 0, 16, 0x66, 0x74, 0x79, 0x70, 0x71, 0x74, 0x20, 0x20, 0, 0, 0, 0]
              pos)
            #[0, 0, 0, 16, 0x66, 0x74, 0x79, 0x70, 0x71, 0x74, 0x20, 0x20, 0, 0, 0, 0] (pos + 16)
            (pos + be32 #[0, 0, 0, 16, 0x66, 0x74, 0x79, 0x70, 0x71, 0x74, 0x20, 0x20, 0, 0, 0, 0]
              pos) = some c →
          k < c ∨ c + 4 ≤ k) →
        (#[0, 0, 0, 16, 0x66, 0x74, 0x79, 0x70, 0x69, 0x73, 0x6F, 0x6D, 0, 0, 0, 0] :
          Array Nat).getD k 0
          = (#[0, 0, 0, 16, 0x66, 0x74, 0x79, 0x70, 0x71, 0x74, 0x20, 0x20, 0, 0, 0, 0] :
          Array Nat).getD k 0) ∧
      (∀ c, firstQtGo
          (pos + be32 #[0, 0, 0, 16, 0x66, 0x74, 0x79, 0x70, 0x71, 0x74, 0x20, 0x20, 0, 0, 0, 0]
            pos)
          #[0, 0, 0, 16, 0x66, 0x74, 0x79, 0x70, 0x71, 0x74, 0x20, 0x20, 0, 0, 0, 0] (pos + 16)
          (pos + be32 #[0, 0, 0, 16, 0x66, 0x74, 0x79, 0x70, 0x71, 0x74, 0x20, 0x20, 0, 0, 0, 0]
            pos) = some c →
        chr4 #[0, 0, 0, 16, 0x66, 0x74, 0x79, 0x70, 0x69, 0x73, 0x6F, 0x6D, 0, 0, 0, 0] c
          = isom4) :=
  remuxMovToMp4_frame
    #[0, 0, 0, 16, 0x66, 0x74, 0x79, 0x70, 0x71, 0x74, 0x20, 0x20, 0, 0, 0, 0]
    #[0, 0, 0, 16, 0x66, 0x74, 0x79, 0x70, 0x69, 0x73, 0x6F, 0x6D, 0, 0, 0, 0] rfl

/-! ### MOBI theorems -/

theorem size_copyInto (off : Nat) (src : Array Nat) (c : Array Nat) :
    (copyInto c off src).size = c.size := by
  unfold copyInto
  generalize List.range src.size = l
  induction l generalizing c with
  | nil => rfl
  | cons i t ih => simpa using ih (c.setD (off + i) (src.getD i 0))

theorem size_fillGo : ∀ (ps : List (Array Nat)) (c : Array Nat) (off : Nat),
    (fillGo ps c off).size = c.size := by
  intro ps
  induction ps with
  | nil => intro c off; rfl
  | cons p t ih =>
    intro c off
    simp only [fillGo]
    split
    · rfl
    · rw [ih, size_copyInto]

/-- Claim C7: `extractMobiText`'s validity checks, tried in source order —
a file shorter than 78 bytes, a record count below 2, a record 0 that
starts past the end of the file or is shorter than 14 bytes, a non-zero
encryption field (the DRM error), and a compression field other than 1 or
2 (the unsupported-compression error) each abort with the corresponding
error before any text is assembled; when all checks pass, extraction
succeeds. -/
theorem extractMobiText_checks (buf : Array Nat) :
    (buf.size < 78 → extractMobiText buf = Except.error errTooSmall) ∧
    (¬ buf.size < 78 → be16 buf 76 < 2 →
      extractMobiText buf = Except.error errNotEnough) ∧
    (¬ buf.size < 78 → ¬ be16 buf 76 < 2 → (recordOffsetsOf buf).length ≠ 0 →
      mobiRec0Start buf ≥ buf.size → extractMobiText buf = Except.error errRec0OOB) ∧
    (¬ buf.size < 78 → ¬ be16 buf 76 < 2 → (recordOffsetsOf buf).length ≠ 0 →
      ¬ mobiRec0Start buf ≥ buf.size →
      (mobiRec0End buf - mobiRec0Start buf < 14 ∨ mobiRec0Start buf + 14 > buf.size) →
      extractMobiText buf = Except.error errRec0Short) ∧
    (¬ buf.size < 78 → ¬ be16 buf 76 < 2 → (recordOffsetsOf buf).length ≠ 0 →
      ¬ mobiRec0Start buf ≥ buf.size → ¬ mobiRec0End buf - mobiRec0Start buf < 14 →
      ¬ mobiRec0Start buf + 14 > buf.size → mobiEncryption buf ≠ 0 →
      extractMobiText buf = Except.error errDRM) ∧
    (¬ buf.size < 78 → ¬ be16 buf 76 < 2 → (recordOffsetsOf buf).length ≠ 0 →
      ¬ mobiRec0Start buf ≥ buf.size → ¬ mobiRec0End buf - mobiRec0Start buf < 14 →
      ¬ mobiRec0Start buf + 14 > buf.size → mobiEncryption buf = 0 →
      mobiCompression buf ≠ 1 → mobiCompression buf ≠ 2 →
      extractMobiText buf = Except.error errCompression) ∧
    (¬ buf.size < 78 → ¬ be16 buf 76 < 2 → (recordOffsetsOf buf).length ≠ 0 →
      ¬ mobiRec0Start buf ≥ buf.size → ¬ mobiRec0End buf - mobiRec0Start buf < 14 →
      ¬ mobiRec0Start buf + 14 > buf.size → mobiEncryption buf = 0 →
      (mobiCompression buf = 1 ∨ mobiCompression buf = 2) →
      ∃ out, extractMobiText buf = Except.ok out) := by
  refine ⟨?_, ?_, ?_, ?_, ?_, ?_, ?_⟩
  · intro h1
    rw [extractMobiText, if_pos h1]
  · intro h1 h2
    rw [extractMobiText, if_neg h1, if_pos h2]
  · intro h1 h2 h3 h4
    rw [extractMobiText, if_neg h1, if_neg h2, if_neg h3, if_pos h4]
  · intro h1 h2 h3 h4 h5
    rcases h5 with h5 | h5
    · rw [extractMobiText, if_neg h1, if_neg h2, if_neg h3, if_neg h4, if_pos h5]
    · by_cases h5a : mobiRec0End buf - mobiRec0Start buf < 14
      · rw [extractMobiText, if_neg h1, if_neg h2, if_neg h3, if_neg h4, if_pos h5a]
      · rw [extractMobiText, if_neg h1, if_neg h2, if_neg h3, if_neg h4, if_neg h5a,
          if_pos h5]
  · intro h1 h2 h3 h4 h5 h6 h7
    rw [extractMobiText, if_neg h1, if_neg h2, if_neg h3, if_neg h4, if_neg h5, if_neg h6,
      if_pos h7]
  · intro h1 h2 h3 h4 h5 h6 h7 h8 h9
    rw [extractMobiText, if_neg h1, if_neg h2, if_neg h3, if_neg h4, if_neg h5, if_neg h6,
      if_neg (by simp [h7]), if_pos ⟨h8, h9⟩]
  · intro h1 h2 h3 h4 h5 h6 h7 h8
    refine ⟨fillGo (mobiTextParts buf)
      (Array.mkArray (min ((mobiTextParts buf).map Array.size).sum (mobiTextLength buf)) 0) 0, ?_⟩
    rw [extractMobiText, if_neg h1, if_neg h2, if_neg h3, if_neg h4, if_neg h5, if_neg h6,
      if_neg (by simp [h7]), if_neg (by tauto)]

/-- Witness for C7: a concrete DRM-protected file hits the DRM error, and a
concrete valid file extracts successfully. -/
theorem extractMobiText_checks_witness :
    extractMobiText mobiDrmExample = Except.error errDRM ∧
    ∃ out, extractMobiText mobiOkExample = Except.ok out := by
  constructor
  · exact (extractMobiText_checks mobiDrmExample).2.2.2.2.1 (by decide) (by decide)
      (by decide) (by decide) (by decide) (by decide) (by decide)
  · exact (extractMobiText_checks mobiOkExample).2.2.2.2.2.2 (by decide) (by decide)
      (by decide) (by decide) (by decide) (by decide) (by decide) (by decide)

/-- Claim C10: on success the `combined` buffer handed to text decoding has
size exactly `min(totalLen, textLength)` — in particular it never exceeds
the declared 32-bit `textLength` field. -/
theorem extractMobiText_len (buf out : Array Nat) (h : extractMobiText buf = Except.ok out) :
    out.size = min ((mobiTextParts buf).map Array.size).sum (mobiTextLength buf) ∧
    out.size ≤ mobiTextLength buf := by
  rw [extractMobiText] at h
  split at h
  · cases h
  · split at h
    · cases h
    · split at h
      · cases h
      · split at h
        · cases h
        · split at h
          · cases h
          · split at h
            · cases h
            · split at h
              · cases h
              · split at h
                · cases h
                · cases h
                  rw [size_fillGo, Array.size_mkArray]
                  exact ⟨rfl, Nat.min_le_right _ _⟩

/-- Witness for C10 on the concrete valid file: 6 decoded bytes are capped
at the declared `textLength` of 4. -/
theorem extractMobiText_len_witness :
    (Array.mkArray 4 (0 : Nat)).size
        = min ((mobiTextParts mobiOkExample).map Array.size).sum (mobiTextLength mobiOkExample) ∧
    (Array.mkArray 4 (0 : Nat)).size ≤ mobiTextLength mobiOkExample :=
  extractMobiText_len mobiOkExample (Array.mkArray 4 0) rfl

/-! ### Detection theorems -/

theorem sigMatch_avif_not_heic (buf : Array Nat) (h : sigMatch buf avifFmt = true) :
    sigMatch buf heicFmt = false := by
  rw [← Bool.not_eq_true]
  intro hh
  simp only [sigMatch, avifFmt, List.any_cons, List.any_nil, Bool.or_eq_true, pairMatch,
    Bool.and_eq_true, decide_eq_true_eq, sigBytesMatch, beq_iff_eq, Bool.or_false] at h
  simp only [sigMatch, heicFmt, List.any_cons, List.any_nil, Bool.or_eq_true, pairMatch,
    Bool.and_eq_true, decide_eq_true_eq, sigBytesMatch, beq_iff_eq, Bool.or_false] at hh
  omega

/-- Claim C5 (counterexample): a file with no matching signature and the
unrecognised extension `bin` does not resolve to `null` when the
browser-reported MIME type is `image/svg+xml` — `detect` returns the SVG
entry, so the claim's "no signature and no recognized fallback extension
implies null" is false as stated. -/
theorem detect_svg_type_counterexample :
    SIGS.find? (fun fmt => sigMatch #[] fmt) = none ∧
    extOf "x.bin".data ∉ fallbackExts ∧
    detect #[] "x.bin".data "image/svg+xml" ≠ none := by decide

/-- Claim C5 (amended): `detect` returns the first `SIGS` entry (in listed
order) with a matching `(offset, signature)` pair; in particular a buffer
whose bytes 4..11 spell an HEIC (resp. AVIF) `ftyp` brand is classified
as the HEIC (resp. AVIF) entry, not `video/mp4`.  When no signature
matches, the lower-cased extension is none of the recognized fallbacks,
and — the amendment — the browser-reported MIME type is not
`image/svg+xml`, `detect` resolves to `null`. -/
theorem detect_characterisation :
    (∀ buf name ftype fmt, SIGS.find? (fun f => sigMatch buf f) = some fmt →
      detect buf name ftype = some fmt) ∧
    (∀ buf name ftype, sigMatch buf heicFmt = true → detect buf name ftype = some heicFmt) ∧
    (∀ buf name ftype, sigMatch buf avifFmt = true → detect buf name ftype = some avifFmt) ∧
    (∀ buf name ftype, SIGS.find? (fun f => sigMatch buf f) = none →
      extOf name ∉ fallbackExts → ftype ≠ "image/svg+xml" → detect buf name ftype = none) := by
  have hfirst : ∀ (buf : Array Nat) name ftype fmt,
      SIGS.find? (fun f => sigMatch buf f) = some fmt → detect buf name ftype = some fmt := by
    intro buf name ftype fmt h
    rw [detect, h]
  refine ⟨hfirst, ?_, ?_, ?_⟩
  · intro buf name ftype h
    exact hfirst buf name ftype heicFmt (by simp [SIGS, List.find?_cons, h])
  · intro buf name ftype h
    have hh := sigMatch_avif_not_heic buf h
    exact hfirst buf name ftype avifFmt (by simp [SIGS, List.find?_cons, h, hh])
  · intro buf name ftype hfind hmem hft
    have hsvg : extOf name ≠ "svg".data := fun h => hmem (by rw [h]; decide)
    have hico : extOf name ≠ "ico".data := fun h => hmem (by rw [h]; decide)
    have htif : extOf name ≠ "tif".data := fun h => hmem (by rw [h]; decide)
    have htiff : extOf name ≠ "tiff".data := fun h => hmem (by rw [h]; decide)
    have havif : extOf name ≠ "avif".data := fun h => hmem (by rw [h]; decide)
    have hmp3 : extOf name ≠ "mp3".data := fun h => hmem (by rw [h]; decide)
    have hwav : extOf name ≠ "wav".data := fun h => hmem (by rw [h]; decide)
    have hogg : extOf name ≠ "ogg".data := fun h => hmem (by rw [h]; decide)
    have hflac : extOf name ≠ "flac".data := fun h => hmem (by rw [h]; decide)
    have hm4a : extOf name ≠ "m4a".data := fun h => hmem (by rw [h]; decide)
    have haac : extOf name ≠ "aac".data := fun h => hmem (by rw [h]; decide)
    have hepub : extOf name ≠ "epub".data := fun h => hmem (by rw [h]; decide)
    have hdocx : extOf name ≠ "docx".data := fun h => hmem (by rw [h]; decide)
    have hrtf : extOf name ≠ "rtf".data := fun h => hmem (by rw [h]; decide)
    have hmobi : extOf name ≠ "mobi".data := fun h => hmem (by rw [h]; decide)
    have hprc : extOf name ≠ "prc".data := fun h => hmem (by rw [h]; decide)
    have httf : extOf name ≠ "ttf".data := fun h => hmem (by rw [h]; decide)
    have hotf : extOf name ≠ "otf".data := fun h => hmem (by rw [h]; decide)
    have hwoff : extOf name ≠ "woff".data := fun h => hmem (by rw [h]; decide)
    have hmov : extOf name ≠ "mov".data := fun h => hmem (by rw [h]; decide)
    have havi : extOf name ≠ "avi".data := fun h => hmem (by rw [h]; decide)
    have hmkv : extOf name ≠ "mkv".data := fun h => hmem (by rw [h]; decide)
    have hzip : extOf name ≠ "zip".data := fun h => hmem (by rw [h]; decide)
    rw [detect, hfind]
    simp only []
    rw [if_neg (fun hc => hc.elim hsvg hft), if_neg hico,
      if_neg (fun hc => hc.elim htif htiff), if_neg havif, if_neg hmp3, if_neg hwav,
      if_neg hogg, if_neg hflac, if_neg hm4a, if_neg haac, if_neg hepub, if_neg hdocx,
      if_neg hrtf, if_neg (fun hc => hc.elim hmobi hprc), if_neg httf, if_neg hotf,
      if_neg hwoff, if_neg hmov, if_neg havi, if_neg hmkv, if_neg hzip]

/-- Witness for the amended C5: a 12-byte `ftypheic` buffer detects as
HEIC, a `ftypavif` buffer as AVIF, and an empty buffer with an
unrecognised extension and a non-SVG MIME type detects as nothing. -/
theorem detect_characterisation_witness :
    detect #[0, 0, 0, 24, 0x66, 0x74, 0x79, 0x70, 0x68, 0x65, 0x69, 0x63] "pic".data ""
        = some heicFmt ∧
    detect #[0, 0, 0, 24, 0x66, 0x74, 0x79, 0x70, 0x61, 0x76, 0x69, 0x66] "pic".data ""
        = some avifFmt ∧
    detect #[] "x.bin".data "" = none := by
  refine ⟨detect_characterisation.2.1 _ _ _ (by decide),
    detect_characterisation.2.2.1 _ _ _ (by decide),
    detect_characterisation.2.2.2 _ _ _ (by decide) (by decide) (by decide)⟩

/-! ### GIF delay theorems -/

theorem diffTriples_self (a : Array Nat) : diffTriples a a = 0 := by
  unfold diffTriples
  generalize List.range ((a.size + 2) / 3) = l
  induction l with
  | nil => rfl
  | cons k t ih =>
    rw [List.foldl_cons]
    simpa using ih

theorem pixelDiffBelow_self (a : Array Nat) (h : 0 < a.size / 3) :
    pixelDiffBelow a a = true := by
  simp [pixelDiffBelow, diffTriples_self, h]

/-- Claim C3 (counterexample): with `fps = 10` (`frameDelay = 100`) and two
identical processed frames, the second frame is skipped and its delay is
accumulated into `prevDelay` but never written — the sum of delays passed
to `writeFrame` is 100, not `100 × 2`, so deduplication does not preserve
the total duration when the skipped frames are trailing. -/
theorem videoToGif_trailing_skip_counterexample :
    (gifRun (frameDelayOf 10) [z768, z768]).delays.sum = 100 ∧
    (gifRun (frameDelayOf 10) [z768, z768]).delays.sum ≠ frameDelayOf 10 * 2 := by
  have hrun : gifRun (frameDelayOf 10) [z768, z768] = ⟨some z768, 200, [100]⟩ := by
    have hd : frameDelayOf 10 = 100 := by decide
    have hpx : pixelDiffBelow z768 z768 = true := pixelDiffBelow_self z768 (by decide)
    rw [gifRun, List.foldl_cons, List.foldl_cons, List.foldl_nil, hd]
    rw [show gifStep 100 ⟨none, 100, []⟩ z768 = ⟨some z768, 100, [100]⟩ from rfl]
    rw [gifStep]
    simp [hpx]
  rw [hrun]
  decide

/-- Claim C3 (amended): the loop maintains
`sum(delays written) + prevDelay = frameDelay × (frames processed + 1)`;
consequently the sum of delays passed to `writeFrame` equals
`frameDelay × (frames processed)` exactly when the run ends with
`prevDelay = frameDelay`, i.e. when the last processed frame was encoded
rather than skipped; the pending delay of trailing skipped frames is
dropped at `gif.finish()`. -/
theorem videoToGif_delay_invariant (d : Nat) (frames : List (Array Nat)) :
    ((gifRun d frames).delays.sum + (gifRun d frames).prevDelay = d * (frames.length + 1)) ∧
    ((gifRun d frames).prevDelay = d → (gifRun d frames).delays.sum = d * frames.length) := by
  have hstep : ∀ (s : GifAcc) (f : Array Nat),
      (gifStep d s f).delays.sum + (gifStep d s f).prevDelay
        = s.delays.sum + s.prevDelay + d := by
    intro s f
    match s with
    | ⟨none, pd, ds⟩ =>
      simp [gifStep, List.sum_append]
    | ⟨some prev, pd, ds⟩ =>
      simp only [gifStep]
      split
      · simp
        omega
      · simp [List.sum_append]
  have key : ∀ (fs : List (Array Nat)) (s : GifAcc),
      (fs.foldl (gifStep d) s).delays.sum + (fs.foldl (gifStep d) s).prevDelay
        = s.delays.sum + s.prevDelay + d * fs.length := by
    intro fs
    induction fs with
    | nil => intro s; simp
    | cons f t ih =>
      intro s
      rw [List.foldl_cons, ih, hstep, List.length_cons, Nat.mul_succ]
      omega
  have h1 := key frames ⟨none, d, []⟩
  simp only [List.sum_nil] at h1
  unfold gifRun
  constructor
  · rw [h1]
    ring
  · intro h2
    omega

/-- Witness for the amended C3: a single processed frame is always encoded,
so the invariant holds and the total duration is exact. -/
theorem videoToGif_delay_invariant_witness :
    ((gifRun 100 [z768]).delays.sum + (gifRun 100 [z768]).prevDelay
      = 100 * ([z768].length + 1)) ∧
    (gifRun 100 [z768]).delays.sum = 100 * [z768].length :=
  ⟨(videoToGif_delay_invariant 100 [z768]).1,
   (videoToGif_delay_invariant 100 [z768]).2 (by decide)⟩

/-! ### RTF theorems -/

theorem rtfGo_nil (f : Nat) (d g : Int) : rtfGo f [] d g = [] := by
  cases f <;> rfl

theorem dropWhileLenLe (p : Nat → Bool) (l : List Nat) :
    (l.dropWhile p).length ≤ l.length := by
  induction l with
  | nil => simp
  | cons c t ih =>
    rw [List.dropWhile_cons]
    split
    · exact Nat.le_succ_of_le ih
    · simp

theorem readParamCU_len (s : List Nat) : (readParamCU s).2.length ≤ s.length := by
  match s with
  | [] => simp [readParamCU]
  | c :: rest =>
    rw [readParamCU]
    split
    · simpa using Nat.le_succ_of_le (dropWhileLenLe isDigitCU rest)
    · split
      · exact dropWhileLenLe isDigitCU (c :: rest)
      · simp

theorem consumeParamSpace_len (s : List Nat) : (consumeParamSpace s).length ≤ s.length := by
  rw [consumeParamSpace]
  cases hm : (readParamCU s).2 with
  | nil => simp
  | cons sp t =>
    have h := readParamCU_len s
    rw [hm] at h
    simp only [List.length_cons] at h
    by_cases hsp : sp = 32 <;> simp [hsp] <;> omega

theorem skipRepl_len (s : List Nat) : (skipRepl s).length ≤ s.length := by
  match s with
  | [] => simp [skipRepl]
  | e :: t =>
    rw [skipRepl]
    split
    · simp
    · simp

theorem rtfGo_open_nil (f : Nat) (d g : Int) :
    rtfGo (f + 1) [123] d g = rtfGo f [] (d + 1) g := rfl

theorem rtfGo_open_cons (f : Nat) (b : Nat) (tl : List Nat) (d g : Int) :
    rtfGo (f + 1) (123 :: b :: tl) d g = rtfGo f (b :: tl) (d + 1)
      (if b = 92 then
         if skipGroups.contains (tl.takeWhile isWordStarCU) ∧ g = 0 then d + 1 else g
       else g) := rfl

theorem rtfGo_close (f : Nat) (rest : List Nat) (d g : Int) :
    rtfGo (f + 1) (125 :: rest) d g
      = rtfGo f rest (d - 1) (if g > 0 ∧ d = g then 0 else g) := rfl

theorem rtfGo_skipmode (f : Nat) (c : Nat) (rest : List Nat) (d g : Int)
    (h1 : ¬ c = 123) (h2 : ¬ c = 125) (h3 : g > 0) :
    rtfGo (f + 1) (c :: rest) d g = rtfGo f rest d g := by
  simp only [rtfGo]
  rw [if_neg h1, if_neg h2, if_pos h3]

theorem findClose_open (f : Nat) (rest : List Nat) (rel : Nat) :
    findClose (f + 1) (123 :: rest) rel = findClose f rest (rel + 1) := rfl

theorem findClose_close (f : Nat) (rest : List Nat) (rel : Nat) :
    findClose (f + 1) (125 :: rest) rel
      = (if rel = 0 then some rest else findClose f rest (rel - 1)) := rfl

theorem findClose_other (f : Nat) (c : Nat) (rest : List Nat) (rel : Nat)
    (h1 : ¬ c = 123) (h2 : ¬ c = 125) :
    findClose (f + 1) (c :: rest) rel = findClose f rest rel := by
  simp only [findClose]
  rw [if_neg h1, if_neg h2]

/-- While a skip group is active (`0 < skipG ≤ depth`), the parser emits
nothing and only tracks braces: it resumes, with the accumulated text
unchanged, exactly after the closing brace matching the skipped group
(`findClose` counts raw braces precisely as the parser's `depth` does),
or emits nothing at all if the group is never closed. -/
theorem rtfGo_skip : ∀ (s : List Nat) (depth skipG : Int), 0 < skipG → skipG ≤ depth →
    rtfGo s.length s depth skipG =
      (match findClose s.length s (depth - skipG).toNat with
       | some rest => rtfGo rest.length rest (skipG - 1) 0
       | none => []) := by
  intro s
  induction s with
  | nil => intro depth skipG h1 h2; rfl
  | cons c rest ih =>
    intro depth skipG h1 h2
    simp only [List.length_cons]
    by_cases hc1 : c = 123
    · subst hc1
      cases rest with
      | nil => rfl
      | cons b tl =>
        have hns : (if b = 92 then
            if skipGroups.contains (tl.takeWhile isWordStarCU) ∧ skipG = 0 then depth + 1
            else skipG
          else skipG) = skipG := by
          by_cases hb : b = 92
          · rw [if_pos hb, if_neg (fun hx => absurd hx.2 (by omega))]
          · rw [if_neg hb]
        have htn : (depth + 1 - skipG).toNat = (depth - skipG).toNat + 1 := by omega
        rw [rtfGo_open_cons, hns, findClose_open,
          ih (depth + 1) skipG h1 (by omega), htn]
    · by_cases hc2 : c = 125
      · subst hc2
        by_cases hd : depth = skipG
        · have hrel : (depth - skipG).toNat = 0 := by omega
          rw [rtfGo_close, if_pos ⟨h1, hd⟩, findClose_close, if_pos hrel, hd]
        · have hrel : ¬ (depth - skipG).toNat = 0 := by omega
          have htn : (depth - 1 - skipG).toNat = (depth - skipG).toNat - 1 := by omega
          rw [rtfGo_close, if_neg (fun hx => hd hx.2), findClose_close, if_neg hrel,
            ih (depth - 1) skipG h1 (by omega), htn]
      · rw [rtfGo_skipmode rest.length c rest depth skipG hc1 hc2 h1,
          findClose_other rest.length c rest _ hc1 hc2, ih depth skipG h1 h2]

/-- Claim C4 (amended): a group `{\word...}` whose first token `word` is
one of the skip control words, encountered at nonnegative brace depth
with no skip already active, contributes nothing to the output: parsing
continues after the matching closing brace (raw brace counting, exactly
the parser's own notion) with the same depth and no active skip, and if
the group is never closed the rest of the input emits nothing. -/
theorem parseRtf_skip_group (tl : List Nat) (depth : Int) (hd : 0 ≤ depth)
    (hmem : skipGroups.contains (tl.takeWhile isWordStarCU) = true) :
    rtfGo (123 :: 92 :: tl).length (123 :: 92 :: tl) depth 0 =
      (match findClose (92 :: tl).length (92 :: tl) 0 with
       | some rest => rtfGo rest.length rest depth 0
       | none => []) := by
  have hskip := rtfGo_skip (92 :: tl) (depth + 1) (depth + 1) (by omega) (by omega)
  have htn : (depth + 1 - (depth + 1)).toNat = 0 := by omega
  have hdm : depth + 1 - 1 = depth := by omega
  rw [htn, hdm] at hskip
  simp only [List.length_cons]
  simp only [List.length_cons] at hskip
  rw [rtfGo_open_cons, if_pos rfl, if_pos ⟨hmem, rfl⟩]
  exact hskip

/-- Witness for the amended C4: skipping a concrete `{\fonttbl x}` group
resumes right after its closing brace. -/
theorem parseRtf_skip_group_witness :
    rtfGo (123 :: 92 :: str2cu "fonttbl x\x7dy").length (123 :: 92 :: str2cu "fonttbl x\x7dy")
        0 0 =
      (match findClose (92 :: str2cu "fonttbl x\x7dy").length (92 :: str2cu "fonttbl x\x7dy")
          0 with
       | some rest => rtfGo rest.length rest 0 0
       | none => []) :=
  parseRtf_skip_group (str2cu "fonttbl x\x7dy") 0 (by decide) (by decide)

/-- Claim C4 (counterexample): with a stray unmatched closing brace before
the group, the `{\fonttbl ...}` group is **not** skipped — the skip marker
`skipGroup = depth` coincides with the inactive sentinel 0 — and the
characters inside the font table appear in the output. -/
theorem parseRtf_stray_close_counterexample :
    skipGroups.contains (str2cu "fonttbl") = true ∧
    parseRtf (str2cu "\x7d\x7b\\fonttbl abc\x7d") = str2cu "abc" := by decide

theorem takeWhile_append_all (p : Nat → Bool) (l1 l2 : List Nat) (h : l1.all p = true) :
    (l1 ++ l2).takeWhile p = l1 ++ l2.takeWhile p := by
  induction l1 with
  | nil => simp
  | cons c t ih =>
    simp only [List.all_cons, Bool.and_eq_true] at h
    simp only [List.cons_append, List.takeWhile_cons_of_pos h.1, ih h.2]

theorem dropWhile_append_all (p : Nat → Bool) (l1 l2 : List Nat) (h : l1.all p = true) :
    (l1 ++ l2).dropWhile p = l2.dropWhile p := by
  induction l1 with
  | nil => simp
  | cons c t ih =>
    simp only [List.all_cons, Bool.and_eq_true] at h
    simp only [List.cons_append, List.dropWhile_cons_of_pos h.1, ih h.2]

theorem dropWhile_eq_self (p : Nat → Bool) (l : List Nat) (h : l.takeWhile p = []) :
    l.dropWhile p = l := by
  cases l with
  | nil => rfl
  | cons c t =>
    by_cases hp : p c = true
    · rw [List.takeWhile_cons_of_pos hp] at h
      cases h
    · rw [List.dropWhile_cons_of_neg hp]

/-- One unfolding of the backslash branch for a non-special first
character: the control-word machinery. -/
theorem rtfGo_bs (f : Nat) (dd : Nat) (tl2 : List Nat) (d : Int) :
    rtfGo (f + 1) (92 :: dd :: tl2) d 0
      = (if dd = 92 then 92 :: rtfGo f tl2 d 0
         else if dd = 123 then 123 :: rtfGo f tl2 d 0
         else if dd = 125 then 125 :: rtfGo f tl2 d 0
         else if dd = 126 then 0xA0 :: rtfGo f tl2 d 0
         else if dd = 45 then 0xAD :: rtfGo f tl2 d 0
         else if dd = 95 then 0x2011 :: rtfGo f tl2 d 0
         else if dd = 39 then
           (match parseIntJS 16 (tl2.take 2) with
            | some code => jsFromCharCode code :: rtfGo f (tl2.drop 2) d 0
            | none => rtfGo f (tl2.drop 2) d 0)
         else
           (if (dd :: tl2).takeWhile isLetterCU = str2cu "u" then
              (match parseIntJS 10 (readParamCU ((dd :: tl2).dropWhile isLetterCU)).1 with
               | some code => [jsFromCharCode (if code < 0 then code + 65536 else code)]
               | none => [])
                ++ rtfGo f (skipRepl (consumeParamSpace ((dd :: tl2).dropWhile isLetterCU)))
                  d 0
            else controlOut ((dd :: tl2).takeWhile isLetterCU)
                ++ rtfGo f (consumeParamSpace ((dd :: tl2).dropWhile isLetterCU)) d 0)) := rfl

/-- Claim C8 (amended), token by token in normal mode (`skipGroup = 0`,
any depth): a backslash followed by a non-empty all-letter word `w` not
equal to `u` consumes the word, its optional numeric parameter and one
trailing space, and emits `controlOut w`; `\\`, `\{`, `\}` emit the
literal character; `\'` hands the next two characters to
`parseInt(·, 16)` and emits the resulting UTF-16 code unit, or nothing
when the parse yields no digits; `\uN` emits `N` as a UTF-16 code unit
(adding 65536 when `N` is negative, reduced modulo 65536) when the
parameter parses, nothing otherwise, and then skips one replacement
character unless it is a backslash or a brace; `\par`/`\line` map to a
newline, `\tab` to a tab, the seven typographic words to their
characters, every other word to nothing; raw CR/LF emit nothing. -/
theorem parseRtf_tokens :
    (∀ (f : Nat) (w tl : List Nat) (d : Int), w ≠ [] → w.all isLetterCU = true →
      tl.takeWhile isLetterCU = [] → w ≠ str2cu "u" →
      rtfGo (f + 1) (92 :: w ++ tl) d 0
        = controlOut w ++ rtfGo f (consumeParamSpace tl) d 0) ∧
    (∀ (f : Nat) (tl : List Nat) (d : Int),
      rtfGo (f + 1) (92 :: 92 :: tl) d 0 = 92 :: rtfGo f tl d 0 ∧
      rtfGo (f + 1) (92 :: 123 :: tl) d 0 = 123 :: rtfGo f tl d 0 ∧
      rtfGo (f + 1) (92 :: 125 :: tl) d 0 = 125 :: rtfGo f tl d 0) ∧
    (∀ (f : Nat) (tl : List Nat) (d : Int),
      rtfGo (f + 1) (92 :: 39 :: tl) d 0
        = (match parseIntJS 16 (tl.take 2) with
           | some code => jsFromCharCode code :: rtfGo f (tl.drop 2) d 0
           | none => rtfGo f (tl.drop 2) d 0)) ∧
    (∀ (f : Nat) (tl : List Nat) (d : Int), tl.takeWhile isLetterCU = [] →
      rtfGo (f + 1) (92 :: 117 :: tl) d 0
        = (match parseIntJS 10 (readParamCU tl).1 with
           | some code => [jsFromCharCode (if code < 0 then code + 65536 else code)]
           | none => [])
          ++ rtfGo f (skipRepl (consumeParamSpace tl)) d 0) ∧
    (controlOut (str2cu "par") = [10] ∧ controlOut (str2cu "line") = [10] ∧
     controlOut (str2cu "tab") = [9] ∧ controlOut (str2cu "lquote") = [0x2018] ∧
     controlOut (str2cu "rquote") = [0x2019] ∧ controlOut (str2cu "ldblquote") = [0x201C] ∧
     controlOut (str2cu "rdblquote") = [0x201D] ∧ controlOut (str2cu "bullet") = [0x2022] ∧
     controlOut (str2cu "endash") = [0x2013] ∧ controlOut (str2cu "emdash") = [0x2014]) ∧
    (∀ w : List Nat,
      ¬ w ∈ [str2cu "par", str2cu "line", str2cu "tab", str2cu "lquote", str2cu "rquote",
        str2cu "ldblquote", str2cu "rdblquote", str2cu "bullet", str2cu "endash",
        str2cu "emdash"] →
      controlOut w = []) ∧
    (∀ (f : Nat) (rest : List Nat) (d : Int),
      rtfGo (f + 1) (13 :: rest) d 0 = rtfGo f rest d 0 ∧
      rtfGo (f + 1) (10 :: rest) d 0 = rtfGo f rest d 0) := by
  refine ⟨?_, fun f tl d => ⟨rfl, rfl, rfl⟩, fun f tl d => rfl, ?_, by decide, ?_,
    fun f rest d => ⟨rfl, rfl⟩⟩
  · intro f w tl d hw hall htl hu
    match w, hw with
    | wh :: wt, _ =>
      simp only [List.all_cons, Bool.and_eq_true] at hall
      have hne : ∀ n : Nat, isLetterCU n = false → ¬ wh = n := by
        intro n hn he
        have := hall.1
        rw [he, hn] at this
        cases this
      simp only [List.cons_append]
      rw [rtfGo_bs f wh (wt ++ tl) d, if_neg (hne 92 (by decide)),
        if_neg (hne 123 (by decide)), if_neg (hne 125 (by decide)),
        if_neg (hne 126 (by decide)), if_neg (hne 45 (by decide)),
        if_neg (hne 95 (by decide)), if_neg (hne 39 (by decide))]
      have hallw : (wh :: wt).all isLetterCU = true := by
        simp [List.all_cons, hall.1, hall.2]
      have htw : (wh :: (wt ++ tl)).takeWhile isLetterCU = wh :: wt := by
        rw [← List.cons_append, takeWhile_append_all _ _ _ hallw, htl, List.append_nil]
      have hdw : (wh :: (wt ++ tl)).dropWhile isLetterCU = tl := by
        rw [← List.cons_append, dropWhile_append_all _ _ _ hallw, dropWhile_eq_self _ _ htl]
      rw [htw, hdw, if_neg hu]
  · intro f tl d htl
    rw [rtfGo_bs f 117 tl d, if_neg (by decide), if_neg (by decide), if_neg (by decide),
      if_neg (by decide), if_neg (by decide), if_neg (by decide), if_neg (by decide)]
    have htw : (117 :: tl).takeWhile isLetterCU = str2cu "u" := by
      rw [List.takeWhile_cons_of_pos (by decide), htl]
      rfl
    have hdw : (117 :: tl).dropWhile isLetterCU = tl := by
      rw [List.dropWhile_cons_of_pos (by decide), dropWhile_eq_self _ _ htl]
    rw [htw, hdw, if_pos rfl]
  · intro w hmem
    simp only [List.mem_cons, List.not_mem_nil, or_false, not_or] at hmem
    obtain ⟨h1, h2, h3, h4, h5, h6, h7, h8, h9, h10⟩ := hmem
    rw [controlOut, if_neg (fun hc => hc.elim h1 h2), if_neg h3, if_neg h4, if_neg h5,
      if_neg h6, if_neg h7, if_neg h8, if_neg h9, if_neg h10]

/-- Claim C8 (counterexample): `parseInt('3g', 16)` parses the longest
valid prefix, so `\'3g` emits the control character U+0003 even though
`3g` is not two valid hex digits — the claim says it should emit
nothing. -/
theorem parseRtf_hex_prefix_counterexample :
    parseRtf (str2cu "\\'3g") = [3] ∧ parseRtf (str2cu "\\'3g") ≠ [] := by decide

/-- Witness for the amended C8 at concrete tokens: a `par` control word, a
unicode escape with parameter 9731 and replacement char, and the unmapped
word `qc`. -/
theorem parseRtf_tokens_witness :
    rtfGo (6 + 1) (92 :: str2cu "par" ++ str2cu " x") 0 0
      = controlOut (str2cu "par") ++ rtfGo 6 (consumeParamSpace (str2cu " x")) 0 0 ∧
    rtfGo (6 + 1) (92 :: 117 :: str2cu "9731?x") 0 0
      = (match parseIntJS 10 (readParamCU (str2cu "9731?x")).1 with
         | some code => [jsFromCharCode (if code < 0 then code + 65536 else code)]
         | none => [])
        ++ rtfGo 6 (skipRepl (consumeParamSpace (str2cu "9731?x"))) 0 0 ∧
    controlOut (str2cu "qc") = [] := by
  refine ⟨parseRtf_tokens.1 6 (str2cu "par") (str2cu " x") 0 (by decide) (by decide)
      (by decide) (by decide),
    parseRtf_tokens.2.2.2.1 6 (str2cu "9731?x") 0 (by decide),
    parseRtf_tokens.2.2.2.2.2.1 (str2cu "qc") (by decide)⟩
